import Mathlib

/-!
# Verification of the U-chat room-scoped WebSocket gateway

A shallow embedding of the gateway-service core
(`gateway-service/src/ws_handler.rs`, `gateway-service/src/state.rs`)
together with proofs about it.

The embedding covers:
* token extraction from the `Sec-WebSocket-Protocol` header
  (`extract_token_from_protocol`);
* origin admission (`is_origin_allowed` and the handler's use of it);
* JWT validation with expiry leeway (`validate_token`, with the signature
  check abstracted: a token records the secret it was signed with);
* the hex encoding used for binary frames (`base64_encode`, which despite
  its source name emits lowercase hex) and the JSON envelope built from it;
* the room registry (`DashMap<String, broadcast::Sender<String>>`) as an
  association list from room id to channel id, with creation-on-demand and
  the cleanup path of `handle_socket`;
* the per-session dual-loop protocol of `handle_socket` as an executable
  step function over a world of broadcast-channel logs and sessions,
  scheduled by an explicit event list.

Rust strings are modelled as `List Char` where character-level structure
matters and as `String` elsewhere; `u8` bytes are `Nat` values below 256;
machine counters stay within `Nat`.
-/

/-! ## Character utilities for `str::split`, `str::trim`, `eq_ignore_ascii_case` -/

/-- Whitespace recognizer used by `str::trim`, restricted to the ASCII
whitespace characters (the only ones exercised by the gateway's headers). -/
def isWhitespaceChar (c : Char) : Bool :=
  c == ' ' || c == '\t' || c == '\n' || c == '\x0d' || c == '\x0b' || c == '\x0c'

/-- Drop leading whitespace, as in the leading half of `str::trim`. -/
def trimLeft : List Char → List Char
  | [] => []
  | c :: cs => if isWhitespaceChar c then trimLeft cs else c :: cs

/-- Model of `str::trim`: drop leading and trailing whitespace. -/
def trimChars (l : List Char) : List Char :=
  ((trimLeft ((trimLeft l).reverse)).reverse)

/-- Rust `str::split(',')`: split at every comma; the empty string yields
one empty part, and a trailing comma yields a trailing empty part. -/
def splitOnComma : List Char → List (List Char)
  | [] => [[]]
  | c :: cs =>
    if c = ',' then [] :: splitOnComma cs
    else
      match splitOnComma cs with
      | [] => [[c]]
      | p :: ps => (c :: p) :: ps

/-- ASCII lowercasing of one character (`u8::to_ascii_lowercase`). -/
def asciiLower (c : Char) : Char :=
  if 'A' ≤ c ∧ c ≤ 'Z' then Char.ofNat (c.toNat + 32) else c

/-- Model of `str::eq_ignore_ascii_case`. -/
def eqIgnoreAsciiCase (a b : List Char) : Bool :=
  a.map asciiLower == b.map asciiLower

/-- The keyword `"bearer"` as a character list. -/
def bearerChars : List Char := ['b', 'e', 'a', 'r', 'e', 'r']

/-- The first comma-separated part of a character list (used to describe
what `extract_token_from_protocol` returns on multi-part headers). -/
def headPart : List Char → List Char
  | [] => []
  | c :: cs => if c = ',' then [] else c :: headPart cs

/-! ## `extract_token_from_protocol` (ws_handler.rs, lines 133-147) -/

/-- Embedding of `extract_token_from_protocol`:
split the header on commas, trim each part; if there are at least two parts
and the first equals `bearer` ignoring ASCII case, return the second part;
if there is exactly one part and it is not `bearer`, return it; otherwise
return the empty token. -/
def extract_token_from_protocol (header : List Char) : List Char :=
  let parts := (splitOnComma header).map trimChars
  match parts with
  | p0 :: p1 :: _ => if eqIgnoreAsciiCase p0 bearerChars then p1 else []
  | [p0] => if eqIgnoreAsciiCase p0 bearerChars then [] else p0
  | [] => []

/-! ## Origin guard (state.rs, lines 56-62; ws_handler.rs, lines 57-63) -/

/-- Embedding of `AppState::is_origin_allowed`: an empty allow-list admits
every origin; otherwise the origin must equal some list entry. -/
def is_origin_allowed (allowed_origins : List String) (origin : String) : Bool :=
  if allowed_origins.isEmpty then true
  else allowed_origins.any (fun o => o == origin)

/-- The handler's use of the origin guard: the check runs only when an
`Origin` header is present; an absent header is always admitted. -/
def origin_admitted (allowed_origins : List String) (origin : Option String) : Bool :=
  match origin with
  | none => true
  | some o => is_origin_allowed allowed_origins o

/-! ## Token validation (ws_handler.rs, lines 27-37 and 150-162) -/

/-- The JWT claims structure `TokenClaims`. -/
structure TokenClaims where
  sub : String
  exp : Nat
  room : Option String
deriving DecidableEq

/-- Validation errors surfaced by `jsonwebtoken::decode`. -/
inductive JwtError
  | invalidSignature
  | expiredSignature
deriving DecidableEq

/-- A signed token, with the cryptography abstracted: the token records the
secret it was signed with, and signature verification compares that secret
with the verifier's secret. -/
structure SignedToken where
  claims : TokenClaims
  signedWith : String
deriving DecidableEq

/-- Embedding of `validate_token`: `jsonwebtoken::decode` with
`validation.leeway = 60` and `validation.validate_exp = true`.  The
signature is checked first; then the token is rejected exactly when
`claims.exp < now - leeway` (natural subtraction, as the Rust `u64`
arithmetic with `now ≥ leeway`). -/
def validate_token (token : SignedToken) (secret : String) (now : Nat) :
    Except JwtError TokenClaims :=
  if token.signedWith ≠ secret then .error .invalidSignature
  else if token.claims.exp < now - 60 then .error .expiredSignature
  else .ok token.claims

/-- The admission decision `ws_handler` derives from `validate_token`
(ws_handler.rs, lines 84-90): an error becomes the pre-upgrade denial
`403 Invalid or expired token`. -/
def token_admission (token : SignedToken) (secret : String) (now : Nat) :
    Except (Nat × String) TokenClaims :=
  match validate_token token secret now with
  | .ok c => .ok c
  | .error _ => .error (403, "Invalid or expired token")

/-! ## Binary-frame encoding (ws_handler.rs, lines 211-216 and 256-264) -/

/-- One lowercase hex digit, as produced by `format!("{:02x}", _)`. -/
def hexDigit (n : Nat) : Char :=
  if n < 10 then Char.ofNat ('0'.toNat + n) else Char.ofNat ('a'.toNat + (n - 10))

/-- Two-digit lowercase hex for one byte (`format!("{:02x}", b)` on `u8`). -/
def byteToHex (b : Nat) : List Char :=
  [hexDigit ((b % 256) / 16), hexDigit (b % 16)]

/-- Embedding of `base64_encode`: despite its name, the source function hex
encodes the bytes (its initial `write!` of `data.len()` goes to a buffer
that is discarded). -/
def base64_encode (data : List Nat) : String :=
  String.mk ((data.map byteToHex).flatten)

/-- The JSON envelope published for a binary frame:
`format!("{{\"type\":\"binary\",\"data\":\"{}\"}}", encoded)`. -/
def binaryEnvelope (data : List Nat) : String :=
  "\x7b\"type\":\"binary\",\"data\":\"" ++ base64_encode data ++ "\"\x7d"

/-! ## Room registry (state.rs `RoomsMap`; ws_handler.rs, lines 104-111 and 247-252)

The `DashMap<String, broadcast::Sender<String>>` is modelled as an
association list from room id to a channel id (`Nat`); channel identity is
what the compare-and-delete question of the spec is about.  A separate
store records, for each channel id ever created, the list of messages
published to it, and `nextId` supplies fresh channel ids (each
`broadcast::channel` call yields a channel distinct from all others). -/

/-- The gateway-level state: the registry, the channel store, and the next
fresh channel id. -/
structure GatewayState where
  rooms : List (String × Nat)
  chanLogs : List (Nat × List String)
  nextId : Nat
deriving DecidableEq

/-- Association-list lookup in the registry. -/
def lookupRoom : List (String × Nat) → String → Option Nat
  | [], _ => none
  | (k, c) :: rest, r => if k = r then some c else lookupRoom rest r

/-- Model of `DashMap::remove`: drop the entry with the given key. -/
def eraseRoom (m : List (String × Nat)) (r : String) : List (String × Nat) :=
  m.filter (fun p => p.1 ≠ r)

/-- Association-list lookup in the channel store. -/
def lookupLog : List (Nat × List String) → Nat → Option (List String)
  | [], _ => none
  | (c0, l) :: rest, c => if c0 = c then some l else lookupLog rest c

/-- Model of `rooms.entry(room_id).or_insert_with(|| broadcast::channel(CAP).0)`:
return the existing channel for the room, or create a fresh one (fresh id,
empty log) and register it. -/
def get_or_create (st : GatewayState) (roomId : String) : Nat × GatewayState :=
  match lookupRoom st.rooms roomId with
  | some c => (c, st)
  | none =>
    (st.nextId,
      { rooms := (roomId, st.nextId) :: st.rooms
        chanLogs := (st.nextId, []) :: st.chanLogs
        nextId := st.nextId + 1 })

/-- The cleanup path at the end of `handle_socket` (lines 247-252):
`if sender.receiver_count() == 0 { rooms.remove(&room_id); }`.
`receiverCount` is the receiver count of the **departing session's own**
channel handle; the removal itself deletes whatever entry currently sits
under `room_id`, without comparing it with that handle. -/
def release_room (st : GatewayState) (roomId : String) (receiverCount : Nat) :
    GatewayState :=
  if receiverCount = 0 then { st with rooms := eraseRoom st.rooms roomId } else st

/-- Well-formedness of the gateway state: registered channels and stored
channels have ids below `nextId` (so `nextId` is fresh), and the registry
never maps two rooms to one channel (each insertion uses a fresh channel). -/
structure GatewayWF (st : GatewayState) : Prop where
  roomsLt : ∀ p ∈ st.rooms, p.2 < st.nextId
  logsLt : ∀ p ∈ st.chanLogs, p.1 < st.nextId
  injOn : ∀ p ∈ st.rooms, ∀ q ∈ st.rooms, p.2 = q.2 → p.1 = q.1

/-! ## The dual-loop session protocol (ws_handler.rs, lines 171-253)

`handle_socket` splits the socket, subscribes to the room channel, spawns
the forward task (broadcast → socket) and runs the receive loop
(socket → broadcast).  The model is an executable step function over a
world holding the live broadcast channels (as message logs) and the
sessions; an explicit event list schedules which loop of which session runs
next, so every interleaving of the concurrent loops is a schedule. -/

/-- The constant `CHANNEL_CAPACITY` (ws_handler.rs, line 25). -/
def CHANNEL_CAPACITY : Nat := 100

/-- A frame arriving on a session's socket, as matched by the receive loop;
`errFrame` is a transport error (`Err(e)` from the stream). -/
inductive Frame
  | text (s : String)
  | binary (data : List Nat)
  | ping (data : List Nat)
  | pong
  | close
  | errFrame
deriving DecidableEq

/-- A frame the gateway writes to a client socket.  The wire format also
has binary frames, but the forward loop only ever sends
`Message::Text(msg)`; keeping the constructor makes that a theorem rather
than a typing accident. -/
inductive WireFrame
  | text (s : String)
  | binaryFrame (data : List Nat)
deriving DecidableEq

/-- One connection session: its channel, its broadcast-receiver position,
whether its forward task and receive loop are still running, the frames
still to arrive on its socket, and the frames written to its socket. -/
structure Session where
  chan : Nat
  pos : Nat
  fwdRunning : Bool
  recvRunning : Bool
  inbox : List Frame
  out : List WireFrame
deriving DecidableEq

/-- The world of one gateway: the live broadcast channels and the sessions. -/
structure World where
  logs : List (Nat × List String)
  sessions : List Session
deriving DecidableEq

/-- The messages of channel `c` (empty for an unknown channel). -/
def logOf (w : World) (c : Nat) : List String :=
  (lookupLog w.logs c).getD []

/-- Append a message to channel `c` in the store. -/
def bumpLog : List (Nat × List String) → Nat → String → List (Nat × List String)
  | [], _, _ => []
  | (c0, l) :: rest, c, m =>
    if c0 = c then (c0, l ++ [m]) :: bumpLog rest c m
    else (c0, l) :: bumpLog rest c m

/-- Model of `broadcast::Sender::receiver_count` for channel `c`: sessions whose
forward task (the owner of the subscription handle) is still running. -/
def recvCount (w : World) (c : Nat) : Nat :=
  (w.sessions.filter (fun s => s.chan == c && s.fwdRunning)).length

/-- Model of `sender.send(m)`: with no active receiver the send fails and the
message is dropped (the loop only logs the error); otherwise the message is
appended to the channel. -/
def publish (w : World) (c : Nat) (m : String) : World :=
  if recvCount w c = 0 then w else { w with logs := bumpLog w.logs c m }

/-- Update the session at index `i`. -/
def updAt : Nat → (α → α) → List α → List α
  | _, _, [] => []
  | 0, f, a :: l => f a :: l
  | n + 1, f, a :: l => a :: updAt n f l

/-- One iteration of the forward task
(`while let Ok(msg) = rx.recv().await { if ws_sender.send(..).is_err() { break } }`):
nothing pending → wait; lagged by more than the capacity → `rx.recv()`
returns `Err(Lagged)` and the `while let Ok` loop breaks; otherwise the
next message is written to the socket as a text frame. -/
def fwdStepSess (w : World) (s : Session) : Session :=
  if s.fwdRunning then
    if (logOf w s.chan).length ≤ s.pos then s
    else if CHANNEL_CAPACITY < (logOf w s.chan).length - s.pos then
      { s with fwdRunning := false }
    else
      { s with pos := s.pos + 1,
               out := s.out ++ [WireFrame.text ((logOf w s.chan).getD s.pos "")] }
  else s

/-- The forward task's socket write failing (client gone): the loop breaks.
A write only happens when a message is actually received (no lag, not
pending). -/
def fwdFailSess (w : World) (s : Session) : Session :=
  if s.fwdRunning then
    if (logOf w s.chan).length ≤ s.pos then s
    else if CHANNEL_CAPACITY < (logOf w s.chan).length - s.pos then
      { s with fwdRunning := false }
    else { s with fwdRunning := false }
  else s

/-- An event: which loop of which session runs, and whether the forward
task's socket write fails. -/
inductive Ev
  | fwd (i : Nat)
  | fwdFail (i : Nat)
  | recv (i : Nat)
deriving DecidableEq

/-- The session index an event addresses. -/
def evIdx : Ev → Nat
  | .fwd i => i
  | .fwdFail i => i
  | .recv i => i

/-- One scheduled step of the session protocol.  The receive-loop cases
follow the `match` of `handle_socket` lines 202-238: text and binary frames
publish to the room channel; ping and pong are logged only; a close frame
or a transport error breaks the loop, after which `forward_task.abort()`
stops the forward task and drops its receiver.  Exhaustion of the socket
stream (`ws_receiver.next() == None`) ends the loop the same way. -/
def step (w : World) : Ev → World
  | .fwd i => { w with sessions := updAt i (fwdStepSess w) w.sessions }
  | .fwdFail i => { w with sessions := updAt i (fwdFailSess w) w.sessions }
  | .recv i =>
    match w.sessions.get? i with
    | none => w
    | some s =>
      if s.recvRunning then
        match s.inbox with
        | [] =>
          let f := fun s0 => { s0 with recvRunning := false, fwdRunning := false }
          { w with sessions := updAt i f w.sessions }
        | Frame.text t :: r =>
          let w1 := publish w s.chan t
          { w1 with sessions := updAt i (fun s0 => { s0 with inbox := r }) w1.sessions }
        | Frame.binary d :: r =>
          let w1 := publish w s.chan (binaryEnvelope d)
          { w1 with sessions := updAt i (fun s0 => { s0 with inbox := r }) w1.sessions }
        | Frame.ping _ :: r =>
          { w with sessions := updAt i (fun s0 => { s0 with inbox := r }) w.sessions }
        | Frame.pong :: r =>
          { w with sessions := updAt i (fun s0 => { s0 with inbox := r }) w.sessions }
        | Frame.close :: r =>
          let f := fun s0 =>
            { s0 with inbox := r, recvRunning := false, fwdRunning := false }
          { w with sessions := updAt i f w.sessions }
        | Frame.errFrame :: r =>
          let f := fun s0 =>
            { s0 with inbox := r, recvRunning := false, fwdRunning := false }
          { w with sessions := updAt i f w.sessions }
      else w

/-- Run a schedule of events. -/
def run (w : World) (es : List Ev) : World :=
  es.foldl step w

/-- Every frame ever written to a client socket is a text frame. -/
def OutText (w : World) : Prop :=
  ∀ s ∈ w.sessions, ∀ f ∈ s.out, ∃ t, f = WireFrame.text t

/-- Every message ever written to a client socket was published to that
session's own channel. -/
def OutFromOwnChannel (w : World) : Prop :=
  ∀ s ∈ w.sessions, ∀ t, WireFrame.text t ∈ s.out → t ∈ logOf w s.chan

/-! ## Lemmas about splitting and trimming -/

theorem trimLeft_space_cons (l : List Char) : trimLeft (' ' :: l) = trimLeft l := by
  simp [trimLeft, isWhitespaceChar]

theorem trimChars_space_cons (l : List Char) : trimChars (' ' :: l) = trimChars l := by
  unfold trimChars
  rw [trimLeft_space_cons]

theorem splitOnComma_of_not_mem (l : List Char) (h : ',' ∉ l) :
    splitOnComma l = [l] := by
  induction l with
  | nil => rfl
  | cons c cs ih =>
    have hc : ¬ c = ',' := fun e => h (by simp [e])
    have hcs : ',' ∉ cs := fun hm => h (List.mem_cons_of_mem _ hm)
    simp only [splitOnComma, if_neg hc, ih hcs]

theorem splitOnComma_append (l₁ l₂ : List Char) (h : ',' ∉ l₁) :
    splitOnComma (l₁ ++ ',' :: l₂) = l₁ :: splitOnComma l₂ := by
  induction l₁ with
  | nil => simp [splitOnComma]
  | cons c cs ih =>
    have hc : ¬ c = ',' := fun e => h (by simp [e])
    have hcs : ',' ∉ cs := fun hm => h (List.mem_cons_of_mem _ hm)
    simp only [List.cons_append, splitOnComma, if_neg hc]
    rw [show splitOnComma (cs.append (',' :: l₂)) = cs :: splitOnComma l₂ from ih hcs]

theorem splitOnComma_eq_headPart_cons (l : List Char) :
    ∃ ps, splitOnComma l = headPart l :: ps := by
  induction l with
  | nil => exact ⟨[], rfl⟩
  | cons c cs ih =>
    obtain ⟨ps, hps⟩ := ih
    by_cases hc : c = ','
    · subst hc
      exact ⟨splitOnComma cs, by simp [splitOnComma, headPart]⟩
    · exact ⟨ps, by simp [splitOnComma, headPart, if_neg hc, hps]⟩

/-! ## Theorems for the frozen claims -/

/-- C4 (amended): token extraction from the admission header.
`"bearer, T"` with a comma-free trimmed token `T` extracts `T`; a bare
comma-free trimmed `T` that is not `bearer` (ignoring ASCII case) extracts
`T`; `"bearer"` alone and the empty header extract the empty token; a
multi-part header whose first part does not trim to `bearer` extracts the
empty token; and a multi-part header whose first part does trim to `bearer`
extracts the trimmed second part even when further parts follow. -/
theorem extract_token_from_protocol_forms :
    (∀ T : List Char, ',' ∉ T → trimChars T = T →
        extract_token_from_protocol (bearerChars ++ ',' :: ' ' :: T) = T) ∧
    (∀ T : List Char, ',' ∉ T → trimChars T = T →
        eqIgnoreAsciiCase T bearerChars = false → extract_token_from_protocol T = T) ∧
    extract_token_from_protocol bearerChars = [] ∧
    extract_token_from_protocol [] = [] ∧
    (∀ l₁ l₂ : List Char, ',' ∉ l₁ →
        eqIgnoreAsciiCase (trimChars l₁) bearerChars = false →
        extract_token_from_protocol (l₁ ++ ',' :: l₂) = []) ∧
    (∀ l₁ l₂ : List Char, ',' ∉ l₁ →
        eqIgnoreAsciiCase (trimChars l₁) bearerChars = true →
        extract_token_from_protocol (l₁ ++ ',' :: l₂) = trimChars (headPart l₂)) := by
  refine ⟨?_, ?_, by decide, by decide, ?_, ?_⟩
  · intro T hT htrim
    have hsp : splitOnComma (bearerChars ++ ',' :: ' ' :: T) =
        bearerChars :: splitOnComma (' ' :: T) := splitOnComma_append _ _ (by decide)
    have hT' : ',' ∉ ' ' :: T := by
      intro hm
      rcases List.mem_cons.mp hm with h | h
      · exact absurd h (by decide)
      · exact hT h
    have hsp2 : splitOnComma (' ' :: T) = [' ' :: T] := splitOnComma_of_not_mem _ hT'
    unfold extract_token_from_protocol
    rw [hsp, hsp2]
    simp only [List.map_cons, List.map_nil, trimChars_space_cons, htrim]
    norm_num [show trimChars bearerChars = bearerChars from by decide,
      show eqIgnoreAsciiCase bearerChars bearerChars = true from by decide]
  · intro T hT htrim hbear
    have hsp : splitOnComma T = [T] := splitOnComma_of_not_mem _ hT
    unfold extract_token_from_protocol
    rw [hsp]
    simp only [List.map_cons, List.map_nil, htrim, hbear]
    simp
  · intro l₁ l₂ h₁ hbear
    have hsp : splitOnComma (l₁ ++ ',' :: l₂) = l₁ :: splitOnComma l₂ :=
      splitOnComma_append _ _ h₁
    obtain ⟨ps, hps⟩ := splitOnComma_eq_headPart_cons l₂
    unfold extract_token_from_protocol
    rw [hsp, hps]
    simp only [List.map_cons, hbear]
    simp
  · intro l₁ l₂ h₁ hbear
    have hsp : splitOnComma (l₁ ++ ',' :: l₂) = l₁ :: splitOnComma l₂ :=
      splitOnComma_append _ _ h₁
    obtain ⟨ps, hps⟩ := splitOnComma_eq_headPart_cons l₂
    unfold extract_token_from_protocol
    rw [hsp, hps]
    simp only [List.map_cons, hbear]
    simp

/-- C4 witness: the amended extraction rules evaluated at concrete headers. -/
theorem extract_token_from_protocol_forms_witness :
    extract_token_from_protocol ("bearer, tok123".data) = "tok123".data ∧
    extract_token_from_protocol ("tok123".data) = "tok123".data ∧
    extract_token_from_protocol ("a, b".data) = [] ∧
    extract_token_from_protocol ("bearer, x, y".data) = "x".data := by
  refine ⟨?_, ?_, ?_, ?_⟩
  · exact extract_token_from_protocol_forms.1 ("tok123".data) (by decide) (by decide)
  · exact extract_token_from_protocol_forms.2.1 ("tok123".data) (by decide) (by decide)
      (by decide)
  · exact extract_token_from_protocol_forms.2.2.2.2.1 ("a".data) (" b".data) (by decide)
      (by decide)
  · have h := extract_token_from_protocol_forms.2.2.2.2.2 ("bearer".data) (" x, y".data)
      (by decide) (by decide)
    simpa using h

/-- C4 counterexample: the header `"bearer, x, y"` is none of the four
listed forms, yet it extracts `"x"`, not the empty string (and not the tail
`"x, y"` either), so the claim's catch-all "every other form extracts the
empty string" is false on the code. -/
theorem extract_token_catchall_false :
    extract_token_from_protocol ("bearer, x, y".data) = "x".data ∧
    "x".data ≠ ([] : List Char) ∧ "x".data ≠ "x, y".data := by
  refine ⟨by decide, by decide, by decide⟩

/-- C5: for a correctly signed token, admission succeeds whenever `exp` is
within the 60-second leeway of the current time (`now ≤ exp + 60`), and
fails with the forbidden denial whenever `exp` is more than 60 seconds in
the past (`exp + 60 < now`). -/
theorem validate_token_expiry_leeway (tok : SignedToken) (secret : String) (now : Nat)
    (hsig : tok.signedWith = secret) :
    (now ≤ tok.claims.exp + 60 → token_admission tok secret now = .ok tok.claims) ∧
    (tok.claims.exp + 60 < now →
      token_admission tok secret now = .error (403, "Invalid or expired token")) := by
  unfold token_admission validate_token
  rw [if_neg (by simp [hsig])]
  constructor
  · intro h
    rw [if_neg (by omega)]
  · intro h
    rw [if_pos (by omega)]

/-- C5 witness: a token signed with the verifier's secret, evaluated just
inside and just outside the leeway window. -/
theorem validate_token_expiry_leeway_witness :
    (token_admission ⟨⟨"alice", 1000, none⟩, "supersecret"⟩ "supersecret" 1060 =
      .ok ⟨"alice", 1000, none⟩) ∧
    (token_admission ⟨⟨"alice", 1000, none⟩, "supersecret"⟩ "supersecret" 1061 =
      .error (403, "Invalid or expired token")) :=
  ⟨(validate_token_expiry_leeway ⟨⟨"alice", 1000, none⟩, "supersecret"⟩ "supersecret" 1060
      rfl).1 (by decide),
   (validate_token_expiry_leeway ⟨⟨"alice", 1000, none⟩, "supersecret"⟩ "supersecret" 1061
      rfl).2 (by decide)⟩

/-- C6: with an empty allow-list every origin (present or absent) is
admitted; with a non-empty allow-list a present origin is admitted exactly
when it equals some list entry, and an absent origin is always admitted. -/
theorem origin_allowlist_admission (al : List String) :
    (al = [] → ∀ o : Option String, origin_admitted al o = true) ∧
    (al ≠ [] → ∀ s : String, (origin_admitted al (some s) = true ↔ s ∈ al)) ∧
    origin_admitted al none = true := by
  refine ⟨?_, ?_, rfl⟩
  · rintro rfl o
    cases o <;> simp [origin_admitted, is_origin_allowed]
  · intro hne s
    have hempty : al.isEmpty = false := by
      cases al with
      | nil => exact absurd rfl hne
      | cons a l => rfl
    simp only [origin_admitted, is_origin_allowed, hempty, Bool.false_eq_true, if_false,
      List.any_eq_true, beq_iff_eq]
    constructor
    · rintro ⟨x, hx, rfl⟩
      exact hx
    · intro hs
      exact ⟨s, hs, rfl⟩

/-- C6 witness: the origin guard evaluated on a concrete allow-list and on
the empty allow-list. -/
theorem origin_allowlist_admission_witness :
    (origin_admitted [] (some "https://any.example") = true) ∧
    (origin_admitted ["https://example.com"] (some "https://example.com") = true) ∧
    (origin_admitted ["https://example.com"] (some "https://evil.com") ≠ true) ∧
    (origin_admitted ["https://example.com"] none = true) := by
  refine ⟨(origin_allowlist_admission []).1 rfl _, ?_, ?_, (origin_allowlist_admission _).2.2⟩
  · exact ((origin_allowlist_admission ["https://example.com"]).2.1 (by simp) _).mpr
      (by simp)
  · intro h
    have := ((origin_allowlist_admission ["https://example.com"]).2.1 (by simp) _).mp h
    simp at this

/-! ## Registry lemmas -/

theorem lookupRoom_eraseRoom_self (m : List (String × Nat)) (r : String) :
    lookupRoom (eraseRoom m r) r = none := by
  induction m with
  | nil => rfl
  | cons p rest ih =>
    by_cases hp : p.1 = r
    · simpa [eraseRoom, hp] using ih
    · simpa [eraseRoom, lookupRoom, hp] using ih

theorem lookupRoom_mem (m : List (String × Nat)) (r : String) (c : Nat)
    (h : lookupRoom m r = some c) : (r, c) ∈ m := by
  induction m with
  | nil => simp [lookupRoom] at h
  | cons p rest ih =>
    obtain ⟨p1, p2⟩ := p
    by_cases hp : p1 = r
    · simp only [lookupRoom, if_pos hp] at h
      have hc : p2 = c := by injection h
      subst hc
      subst hp
      exact List.mem_cons_self _ _
    · simp only [lookupRoom, if_neg hp] at h
      exact List.mem_cons_of_mem _ (ih h)

/-- C1 (code bug evidence): the release path removes the registry entry
without comparing it with the departing session's channel.  Concretely: the
registry holds channel `7` under `"room"` (a newer channel created after
this session obtained its handle `3`); the session's own channel `3` has
receiver count `0`; the cleanup `if receiver_count == 0 { rooms.remove }`
then deletes the entry of channel `7` — the newer entry the claim says must
never be removed. -/
theorem release_room_deletes_newer_channels_entry :
    (lookupRoom
        (GatewayState.rooms
          { rooms := [("room", 7)], chanLogs := [(7, []), (3, [])], nextId := 8 })
        "room" = some 7) ∧
    (7 : Nat) ≠ 3 ∧
    (lookupRoom
        (GatewayState.rooms
          (release_room
            { rooms := [("room", 7)], chanLogs := [(7, []), (3, [])], nextId := 8 }
            "room" 0))
        "room" = none) := by
  refine ⟨by decide, by decide, by decide⟩

/-- C3: when the departing session observes receiver count zero, the room
entry is removed from the registry; a subsequent `get_or_create` for the
same room id then yields a channel that is distinct from every channel the
registry held before, and whose message log at join time is empty — no
message published before that join is carried over. -/
theorem last_release_removes_room_and_rejoin_gets_fresh_channel
    (st : GatewayState) (hwf : GatewayWF st) (roomId : String) :
    (lookupRoom (release_room st roomId 0).rooms roomId = none) ∧
    (∀ p ∈ st.rooms, (get_or_create (release_room st roomId 0) roomId).1 ≠ p.2) ∧
    (lookupLog (get_or_create (release_room st roomId 0) roomId).2.chanLogs
        (get_or_create (release_room st roomId 0) roomId).1 = some []) := by
  have hrel : release_room st roomId 0 =
      { st with rooms := eraseRoom st.rooms roomId } := by
    unfold release_room
    simp
  have hlook : lookupRoom (release_room st roomId 0).rooms roomId = none := by
    rw [hrel]
    exact lookupRoom_eraseRoom_self st.rooms roomId
  have hgc : get_or_create (release_room st roomId 0) roomId =
      ((release_room st roomId 0).nextId,
        { rooms := (roomId, (release_room st roomId 0).nextId) ::
            (release_room st roomId 0).rooms
          chanLogs := ((release_room st roomId 0).nextId, []) ::
            (release_room st roomId 0).chanLogs
          nextId := (release_room st roomId 0).nextId + 1 }) := by
    unfold get_or_create
    rw [hlook]
  have hnext : (release_room st roomId 0).nextId = st.nextId := by
    rw [hrel]
  refine ⟨hlook, ?_, ?_⟩
  · intro p hp
    rw [hgc]
    simp only [hnext]
    exact Nat.ne_of_gt (hwf.roomsLt p hp)
  · rw [hgc]
    simp [lookupLog]

/-- C3 witness: a room whose single remaining session departs; the entry
disappears and the rejoin obtains the fresh channel `1` with an empty log,
although channel `0` still holds two old messages. -/
theorem last_release_removes_room_witness :
    (lookupRoom
        (release_room
          { rooms := [("r", 0)], chanLogs := [(0, ["old1", "old2"])], nextId := 1 }
          "r" 0).rooms "r" = none) ∧
    ((get_or_create
        (release_room
          { rooms := [("r", 0)], chanLogs := [(0, ["old1", "old2"])], nextId := 1 }
          "r" 0) "r").1 ≠ 0) ∧
    (lookupLog
        (get_or_create
          (release_room
            { rooms := [("r", 0)], chanLogs := [(0, ["old1", "old2"])], nextId := 1 }
            "r" 0) "r").2.chanLogs
        (get_or_create
          (release_room
            { rooms := [("r", 0)], chanLogs := [(0, ["old1", "old2"])], nextId := 1 }
            "r" 0) "r").1 = some []) :=
  ⟨(last_release_removes_room_and_rejoin_gets_fresh_channel
      { rooms := [("r", 0)], chanLogs := [(0, ["old1", "old2"])], nextId := 1 }
      ⟨by decide, by decide, by decide⟩ "r").1,
   (last_release_removes_room_and_rejoin_gets_fresh_channel
      { rooms := [("r", 0)], chanLogs := [(0, ["old1", "old2"])], nextId := 1 }
      ⟨by decide, by decide, by decide⟩ "r").2.1 ("r", 0) (by decide),
   (last_release_removes_room_and_rejoin_gets_fresh_channel
      { rooms := [("r", 0)], chanLogs := [(0, ["old1", "old2"])], nextId := 1 }
      ⟨by decide, by decide, by decide⟩ "r").2.2⟩

/-! ## Lemmas about the session world -/

theorem updAt_nil (i : Nat) (f : α → α) : updAt i f [] = [] := by
  cases i <;> rfl

theorem get?_updAt (l : List α) (f : α → α) :
    ∀ i j : Nat, (updAt i f l).get? j = if i = j then (l.get? j).map f else l.get? j := by
  induction l with
  | nil =>
    intro i j
    rw [updAt_nil]
    split <;> simp
  | cons a t ih =>
    intro i j
    cases i with
    | zero =>
      cases j with
      | zero => simp [updAt]
      | succ j => simp [updAt]
    | succ i =>
      cases j with
      | zero => simp [updAt]
      | succ j =>
        simp only [updAt, List.get?_cons_succ, ih i j]
        by_cases h : i = j <;> simp [h]

theorem get?_updAt_self (l : List α) (f : α → α) (i : Nat) (a : α)
    (h : l.get? i = some a) : (updAt i f l).get? i = some (f a) := by
  rw [get?_updAt, if_pos rfl, h]
  rfl

theorem get?_updAt_ne (l : List α) (f : α → α) (i j : Nat) (h : i ≠ j) :
    (updAt i f l).get? j = l.get? j := by
  rw [get?_updAt, if_neg h]

theorem mem_updAt (l : List α) (f : α → α) (i : Nat) (a : α)
    (h : a ∈ updAt i f l) : a ∈ l ∨ ∃ b ∈ l, a = f b := by
  induction l generalizing i with
  | nil =>
    rw [updAt_nil] at h
    simp at h
  | cons x t ih =>
    cases i with
    | zero =>
      rcases List.mem_cons.mp h with h | h
      · exact Or.inr ⟨x, List.mem_cons_self _ _, h⟩
      · exact Or.inl (List.mem_cons_of_mem _ h)
    | succ i =>
      rcases List.mem_cons.mp h with h | h
      · exact Or.inl (h ▸ List.mem_cons_self _ _)
      · rcases ih i h with h | ⟨b, hb, rfl⟩
        · exact Or.inl (List.mem_cons_of_mem _ h)
        · exact Or.inr ⟨b, List.mem_cons_of_mem _ hb, rfl⟩

theorem logOf_eq_getD (w : World) (c : Nat) :
    logOf w c = (lookupLog w.logs c).getD [] := rfl

theorem lookupLog_bumpLog (logs : List (Nat × List String)) (c c' : Nat) (m : String) :
    lookupLog (bumpLog logs c m) c' =
      if c' = c then (lookupLog logs c').map (fun L => L ++ [m])
      else lookupLog logs c' := by
  induction logs with
  | nil =>
    simp only [bumpLog, lookupLog]
    split <;> rfl
  | cons p rest ih =>
    obtain ⟨c0, L⟩ := p
    by_cases h0 : c0 = c
    · subst h0
      by_cases h1 : c' = c0
      · subst h1
        simp [bumpLog, lookupLog]
      · have h1' : ¬ c0 = c' := fun e => h1 e.symm
        simp [bumpLog, lookupLog, h1, h1', ih]
    · by_cases h1 : c' = c0
      · subst h1
        simp [bumpLog, lookupLog, h0]
      · have h1' : ¬ c0 = c' := fun e => h1 e.symm
        simp [bumpLog, lookupLog, h0, h1', ih]

theorem publish_sessions (w : World) (c : Nat) (m : String) :
    (publish w c m).sessions = w.sessions := by
  unfold publish
  split <;> rfl

theorem logOf_publish_ne (w : World) (c c' : Nat) (m : String) (h : c' ≠ c) :
    logOf (publish w c m) c' = logOf w c' := by
  unfold publish
  split
  · rfl
  · simp only [logOf, lookupLog_bumpLog, if_neg h]

theorem logOf_publish_self (w : World) (c : Nat) (m : String) (L : List String)
    (hrc : recvCount w c ≠ 0) (hL : lookupLog w.logs c = some L) :
    logOf (publish w c m) c = L ++ [m] := by
  unfold publish
  rw [if_neg hrc]
  simp [logOf, lookupLog_bumpLog, hL]

theorem mem_logOf_publish (w : World) (c c' : Nat) (m x : String)
    (hx : x ∈ logOf w c') : x ∈ logOf (publish w c m) c' := by
  unfold publish
  split
  · exact hx
  · simp only [logOf, lookupLog_bumpLog]
    by_cases h : c' = c
    · rw [if_pos h]
      subst h
      cases hL : lookupLog w.logs c' with
      | none =>
        rw [logOf_eq_getD, hL] at hx
        exact absurd hx (List.not_mem_nil x)
      | some L =>
        rw [logOf_eq_getD, hL] at hx
        exact List.mem_append_left _ hx
    · rw [if_neg h]
      exact hx

theorem fwdStepSess_not_running (w : World) (s : Session) (h : s.fwdRunning = false) :
    fwdStepSess w s = s := by
  unfold fwdStepSess
  rw [h]
  simp

theorem fwdFailSess_not_running (w : World) (s : Session) (h : s.fwdRunning = false) :
    fwdFailSess w s = s := by
  unfold fwdFailSess
  rw [h]
  simp

/-- Case analysis of one forward-task iteration: nothing pending, lag, or
delivery of the message at the current position. -/
theorem fwdStepSess_spec (w : World) (s : Session) (h : s.fwdRunning = true) :
    ((logOf w s.chan).length ≤ s.pos ∧ fwdStepSess w s = s) ∨
    (CHANNEL_CAPACITY < (logOf w s.chan).length - s.pos ∧
      fwdStepSess w s = { s with fwdRunning := false }) ∨
    (s.pos < (logOf w s.chan).length ∧
      (logOf w s.chan).length - s.pos ≤ CHANNEL_CAPACITY ∧
      fwdStepSess w s =
        { s with pos := s.pos + 1,
                 out := s.out ++ [WireFrame.text ((logOf w s.chan).getD s.pos "")] }) := by
  unfold fwdStepSess
  rw [h]
  by_cases h1 : (logOf w s.chan).length ≤ s.pos
  · exact Or.inl ⟨h1, by simp [h1]⟩
  · by_cases h2 : CHANNEL_CAPACITY < (logOf w s.chan).length - s.pos
    · exact Or.inr (Or.inl ⟨h2, by simp [h1, h2]⟩)
    · exact Or.inr (Or.inr ⟨by omega, by omega, by simp [h1, h2]⟩)

theorem fwdFailSess_out (w : World) (s : Session) : (fwdFailSess w s).out = s.out := by
  unfold fwdFailSess
  split
  · split
    · rfl
    · split <;> rfl
  · rfl

theorem fwdFailSess_chan (w : World) (s : Session) : (fwdFailSess w s).chan = s.chan := by
  unfold fwdFailSess
  split
  · split
    · rfl
    · split <;> rfl
  · rfl

theorem fwdStepSess_chan (w : World) (s : Session) : (fwdStepSess w s).chan = s.chan := by
  unfold fwdStepSess
  split
  · split
    · rfl
    · split <;> rfl
  · rfl

theorem step_logs_fwd (w : World) (i : Nat) : (step w (Ev.fwd i)).logs = w.logs := rfl

theorem step_logs_fwdFail (w : World) (i : Nat) :
    (step w (Ev.fwdFail i)).logs = w.logs := rfl

/-- A step addressed to session `i` leaves every other session unchanged. -/
theorem step_get?_ne (w : World) (e : Ev) (j : Nat) (hne : evIdx e ≠ j) :
    (step w e).sessions.get? j = w.sessions.get? j := by
  cases e with
  | fwd i => exact get?_updAt_ne _ _ i j hne
  | fwdFail i => exact get?_updAt_ne _ _ i j hne
  | recv i =>
    simp only [evIdx] at hne
    simp only [step]
    cases hgi : w.sessions.get? i with
    | none => rfl
    | some s =>
      dsimp only
      by_cases hrun : s.recvRunning = true
      · rw [if_pos hrun]
        cases hbox : s.inbox with
        | nil => exact get?_updAt_ne _ _ i j hne
        | cons fr r =>
          cases fr with
          | text t =>
            simp only [publish_sessions]
            exact get?_updAt_ne _ _ i j hne
          | binary d =>
            simp only [publish_sessions]
            exact get?_updAt_ne _ _ i j hne
          | ping d => exact get?_updAt_ne _ _ i j hne
          | pong => exact get?_updAt_ne _ _ i j hne
          | close => exact get?_updAt_ne _ _ i j hne
          | errFrame => exact get?_updAt_ne _ _ i j hne
      · rw [if_neg hrun]

theorem step_OutText (w : World) (e : Ev) (h : OutText w) : OutText (step w e) := by
  cases e with
  | fwd i =>
    intro s hs f hf
    rcases mem_updAt _ _ _ _ hs with hmem | ⟨b, hb, rfl⟩
    · exact h s hmem f hf
    · by_cases hbr : b.fwdRunning = true
      · rcases fwdStepSess_spec w b hbr with ⟨_, heq⟩ | ⟨_, heq⟩ | ⟨_, _, heq⟩ <;>
          rw [heq] at hf
        · exact h b hb f hf
        · exact h b hb f hf
        · rcases List.mem_append.mp hf with hf | hf
          · exact h b hb f hf
          · exact ⟨_, List.mem_singleton.mp hf⟩
      · rw [fwdStepSess_not_running w b (Bool.not_eq_true _ ▸ hbr)] at hf
        exact h b hb f hf
  | fwdFail i =>
    intro s hs f hf
    rcases mem_updAt _ _ _ _ hs with hmem | ⟨b, hb, rfl⟩
    · exact h s hmem f hf
    · rw [fwdFailSess_out] at hf
      exact h b hb f hf
  | recv i =>
    simp only [step]
    cases hgi : w.sessions.get? i with
    | none => exact h
    | some s =>
      dsimp only
      by_cases hrun : s.recvRunning = true
      · rw [if_pos hrun]
        cases hbox : s.inbox with
        | nil =>
          intro s' hs' f hf
          rcases mem_updAt _ _ _ _ hs' with hmem | ⟨b, hb, rfl⟩
          · exact h s' hmem f hf
          · exact h b hb f hf
        | cons fr r =>
          cases fr with
          | text t =>
            intro s' hs' f hf
            simp only [publish_sessions] at hs'
            rcases mem_updAt _ _ _ _ hs' with hmem | ⟨b, hb, rfl⟩
            · exact h s' hmem f hf
            · exact h b hb f hf
          | binary d =>
            intro s' hs' f hf
            simp only [publish_sessions] at hs'
            rcases mem_updAt _ _ _ _ hs' with hmem | ⟨b, hb, rfl⟩
            · exact h s' hmem f hf
            · exact h b hb f hf
          | ping d =>
            intro s' hs' f hf
            rcases mem_updAt _ _ _ _ hs' with hmem | ⟨b, hb, rfl⟩
            · exact h s' hmem f hf
            · exact h b hb f hf
          | pong =>
            intro s' hs' f hf
            rcases mem_updAt _ _ _ _ hs' with hmem | ⟨b, hb, rfl⟩
            · exact h s' hmem f hf
            · exact h b hb f hf
          | close =>
            intro s' hs' f hf
            rcases mem_updAt _ _ _ _ hs' with hmem | ⟨b, hb, rfl⟩
            · exact h s' hmem f hf
            · exact h b hb f hf
          | errFrame =>
            intro s' hs' f hf
            rcases mem_updAt _ _ _ _ hs' with hmem | ⟨b, hb, rfl⟩
            · exact h s' hmem f hf
            · exact h b hb f hf
      · rw [if_neg hrun]
        exact h

theorem run_OutText (w : World) (es : List Ev) (h : OutText w) : OutText (run w es) := by
  induction es generalizing w with
  | nil => exact h
  | cons e es ih => exact ih (step w e) (step_OutText w e h)


/-- One receive-loop step on a text frame, written out: the payload is
published to the session's own channel and the inbox advances. -/
theorem step_recv_text (w : World) (i : Nat) (s : Session) (t : String) (r : List Frame)
    (hs : w.sessions.get? i = some s) (hrun : s.recvRunning = true)
    (hbox : s.inbox = Frame.text t :: r) :
    step w (Ev.recv i) =
      { logs := (publish w s.chan t).logs,
        sessions := updAt i (fun s0 => { s0 with inbox := r }) w.sessions } := by
  simp only [step, hs]
  rw [if_pos hrun, hbox]
  simp only [publish_sessions]

/-- One receive-loop step on a binary frame: the hex-encoded JSON envelope
is published to the session's own channel and the inbox advances. -/
theorem step_recv_binary (w : World) (i : Nat) (s : Session) (d : List Nat)
    (r : List Frame)
    (hs : w.sessions.get? i = some s) (hrun : s.recvRunning = true)
    (hbox : s.inbox = Frame.binary d :: r) :
    step w (Ev.recv i) =
      { logs := (publish w s.chan (binaryEnvelope d)).logs,
        sessions := updAt i (fun s0 => { s0 with inbox := r }) w.sessions } := by
  simp only [step, hs]
  rw [if_pos hrun, hbox]
  simp only [publish_sessions]

/-- One receive-loop step that only advances the inbox (ping or pong). -/
theorem step_recv_passive (w : World) (i : Nat) (s : Session) (fr : Frame)
    (r : List Frame)
    (hs : w.sessions.get? i = some s) (hrun : s.recvRunning = true)
    (hbox : s.inbox = fr :: r)
    (hfr : (∃ d, fr = Frame.ping d) ∨ fr = Frame.pong) :
    step w (Ev.recv i) =
      { w with
        sessions := updAt i (fun s0 => { s0 with inbox := r }) w.sessions } := by
  rcases hfr with ⟨d, rfl⟩ | rfl <;>
  · simp only [step, hs]
    rw [if_pos hrun, hbox]

/-- One receive-loop step that ends the loop and aborts the forward task
(close frame or transport error), consuming the frame. -/
theorem step_recv_stop (w : World) (i : Nat) (s : Session) (fr : Frame) (r : List Frame)
    (hs : w.sessions.get? i = some s) (hrun : s.recvRunning = true)
    (hbox : s.inbox = fr :: r)
    (hfr : fr = Frame.close ∨ fr = Frame.errFrame) :
    step w (Ev.recv i) =
      { w with
        sessions :=
          updAt i
            (fun s0 =>
              { s0 with
                inbox := r, recvRunning := false, fwdRunning := false })
            w.sessions } := by
  rcases hfr with rfl | rfl <;>
  · simp only [step, hs]
    rw [if_pos hrun, hbox]

/-- One receive-loop step on an exhausted socket stream: the loop ends and
the forward task is aborted. -/
theorem step_recv_exhausted (w : World) (i : Nat) (s : Session)
    (hs : w.sessions.get? i = some s) (hrun : s.recvRunning = true)
    (hbox : s.inbox = []) :
    step w (Ev.recv i) =
      { w with
        sessions :=
          updAt i (fun s0 => { s0 with recvRunning := false, fwdRunning := false })
            w.sessions } := by
  simp only [step, hs]
  rw [if_pos hrun, hbox]

/-- A receive-loop step of a session whose receive loop already ended does
nothing. -/
theorem step_recv_not_running (w : World) (i : Nat) (s : Session)
    (hs : w.sessions.get? i = some s) (hrun : s.recvRunning = false) :
    step w (Ev.recv i) = w := by
  simp only [step, hs]
  rw [if_neg (by simp [hrun])]

theorem step_OutFromOwnChannel (w : World) (e : Ev) (h : OutFromOwnChannel w) :
    OutFromOwnChannel (step w e) := by
  cases e with
  | fwd i =>
    intro s hs t ht
    rcases mem_updAt _ _ _ _ hs with hmem | ⟨b, hb, rfl⟩
    · exact h s hmem t ht
    · by_cases hbr : b.fwdRunning = true
      · rcases fwdStepSess_spec w b hbr with ⟨_, heq⟩ | ⟨_, heq⟩ | ⟨hlt, _, heq⟩ <;>
          rw [heq]
        · exact h b hb t (heq ▸ ht)
        · exact h b hb t (by rw [heq] at ht; exact ht)
        · rw [heq] at ht
          rcases List.mem_append.mp ht with ht | ht
          · exact h b hb t ht
          · have hteq : t = (logOf w b.chan).getD b.pos "" :=
              (WireFrame.text.injEq _ _).mp (List.mem_singleton.mp ht)
            subst hteq
            rw [List.getD_eq_getElem (logOf w b.chan) "" hlt]
            exact List.getElem_mem hlt
      · rw [fwdStepSess_not_running w b (Bool.not_eq_true _ ▸ hbr)]
        rw [fwdStepSess_not_running w b (Bool.not_eq_true _ ▸ hbr)] at ht
        exact h b hb t ht
  | fwdFail i =>
    intro s hs t ht
    rcases mem_updAt _ _ _ _ hs with hmem | ⟨b, hb, rfl⟩
    · exact h s hmem t ht
    · rw [fwdFailSess_out] at ht
      rw [fwdFailSess_chan]
      exact h b hb t ht
  | recv i =>
    cases hgi : w.sessions.get? i with
    | none =>
      have hw : step w (Ev.recv i) = w := by
        simp only [step, hgi]
      rw [hw]
      exact h
    | some s =>
      by_cases hrun : s.recvRunning = true
      · cases hbox : s.inbox with
        | nil =>
          rw [step_recv_exhausted w i s hgi hrun hbox]
          intro s' hs' t ht
          rcases mem_updAt _ _ _ _ hs' with hmem | ⟨b, hb, rfl⟩
          · exact h s' hmem t ht
          · exact h b hb t ht
        | cons fr r =>
          cases fr with
          | text t0 =>
            rw [step_recv_text w i s t0 r hgi hrun hbox]
            intro s' hs' t ht
            rcases mem_updAt _ _ _ _ hs' with hmem | ⟨b, hb, rfl⟩
            · exact mem_logOf_publish _ _ _ _ _ (h s' hmem t ht)
            · exact mem_logOf_publish _ _ _ _ _ (h b hb t ht)
          | binary d =>
            rw [step_recv_binary w i s d r hgi hrun hbox]
            intro s' hs' t ht
            rcases mem_updAt _ _ _ _ hs' with hmem | ⟨b, hb, rfl⟩
            · exact mem_logOf_publish _ _ _ _ _ (h s' hmem t ht)
            · exact mem_logOf_publish _ _ _ _ _ (h b hb t ht)
          | ping d =>
            rw [step_recv_passive w i s (Frame.ping d) r hgi hrun hbox (Or.inl ⟨d, rfl⟩)]
            intro s' hs' t ht
            rcases mem_updAt _ _ _ _ hs' with hmem | ⟨b, hb, rfl⟩
            · exact h s' hmem t ht
            · exact h b hb t ht
          | pong =>
            rw [step_recv_passive w i s Frame.pong r hgi hrun hbox (Or.inr rfl)]
            intro s' hs' t ht
            rcases mem_updAt _ _ _ _ hs' with hmem | ⟨b, hb, rfl⟩
            · exact h s' hmem t ht
            · exact h b hb t ht
          | close =>
            rw [step_recv_stop w i s Frame.close r hgi hrun hbox (Or.inl rfl)]
            intro s' hs' t ht
            rcases mem_updAt _ _ _ _ hs' with hmem | ⟨b, hb, rfl⟩
            · exact h s' hmem t ht
            · exact h b hb t ht
          | errFrame =>
            rw [step_recv_stop w i s Frame.errFrame r hgi hrun hbox (Or.inr rfl)]
            intro s' hs' t ht
            rcases mem_updAt _ _ _ _ hs' with hmem | ⟨b, hb, rfl⟩
            · exact h s' hmem t ht
            · exact h b hb t ht
      · rw [step_recv_not_running w i s hgi (Bool.not_eq_true _ ▸ hrun)]
        exact h

theorem run_OutFromOwnChannel (w : World) (es : List Ev) (h : OutFromOwnChannel w) :
    OutFromOwnChannel (run w es) := by
  induction es generalizing w with
  | nil => exact h
  | cons e es ih => exact ih (step w e) (step_OutFromOwnChannel w e h)

/-- Once a session's forward task has stopped, no later event restarts it
or changes what was written to its socket. -/
theorem step_fwdStopped (w : World) (e : Ev) (i : Nat) (s : Session)
    (hs : w.sessions.get? i = some s) (hf : s.fwdRunning = false) :
    ∃ s', (step w e).sessions.get? i = some s' ∧ s'.fwdRunning = false ∧
      s'.out = s.out ∧ s'.pos = s.pos ∧ s'.chan = s.chan := by
  by_cases hidx : evIdx e = i
  · cases e with
    | fwd j =>
      simp only [evIdx] at hidx
      subst hidx
      refine ⟨fwdStepSess w s, ?_, ?_⟩
      · exact get?_updAt_self _ _ _ _ hs
      · rw [fwdStepSess_not_running w s hf]
        exact ⟨hf, rfl, rfl, rfl⟩
    | fwdFail j =>
      simp only [evIdx] at hidx
      subst hidx
      refine ⟨fwdFailSess w s, ?_, ?_⟩
      · exact get?_updAt_self _ _ _ _ hs
      · rw [fwdFailSess_not_running w s hf]
        exact ⟨hf, rfl, rfl, rfl⟩
    | recv j =>
      simp only [evIdx] at hidx
      subst hidx
      by_cases hrun : s.recvRunning = true
      · cases hbox : s.inbox with
        | nil =>
          rw [step_recv_exhausted w j s hs hrun hbox]
          exact ⟨_, get?_updAt_self _ _ _ _ hs, rfl, rfl, rfl, rfl⟩
        | cons fr r =>
          cases fr with
          | text t0 =>
            rw [step_recv_text w j s t0 r hs hrun hbox]
            exact ⟨_, get?_updAt_self _ _ _ _ hs, hf, rfl, rfl, rfl⟩
          | binary d =>
            rw [step_recv_binary w j s d r hs hrun hbox]
            exact ⟨_, get?_updAt_self _ _ _ _ hs, hf, rfl, rfl, rfl⟩
          | ping d =>
            rw [step_recv_passive w j s (Frame.ping d) r hs hrun hbox (Or.inl ⟨d, rfl⟩)]
            exact ⟨_, get?_updAt_self _ _ _ _ hs, hf, rfl, rfl, rfl⟩
          | pong =>
            rw [step_recv_passive w j s Frame.pong r hs hrun hbox (Or.inr rfl)]
            exact ⟨_, get?_updAt_self _ _ _ _ hs, hf, rfl, rfl, rfl⟩
          | close =>
            rw [step_recv_stop w j s Frame.close r hs hrun hbox (Or.inl rfl)]
            exact ⟨_, get?_updAt_self _ _ _ _ hs, rfl, rfl, rfl, rfl⟩
          | errFrame =>
            rw [step_recv_stop w j s Frame.errFrame r hs hrun hbox (Or.inr rfl)]
            exact ⟨_, get?_updAt_self _ _ _ _ hs, rfl, rfl, rfl, rfl⟩
      · rw [step_recv_not_running w j s hs (Bool.not_eq_true _ ▸ hrun)]
        exact ⟨s, hs, hf, rfl, rfl, rfl⟩
  · rw [step_get?_ne w e i hidx]
    exact ⟨s, hs, hf, rfl, rfl, rfl⟩

/-- Lemma `step_fwdStopped`, iterated over any schedule. -/
theorem run_fwdStopped (es : List Ev) (w : World) (i : Nat) (s : Session)
    (hs : w.sessions.get? i = some s) (hf : s.fwdRunning = false) :
    ∃ s', (run w es).sessions.get? i = some s' ∧ s'.fwdRunning = false ∧
      s'.out = s.out ∧ s'.pos = s.pos ∧ s'.chan = s.chan := by
  induction es generalizing w s with
  | nil => exact ⟨s, hs, hf, rfl, rfl, rfl⟩
  | cons e es ih =>
    obtain ⟨s1, hs1, hf1, hout1, hpos1, hchan1⟩ := step_fwdStopped w e i s hs hf
    obtain ⟨s2, hs2, hf2, hout2, hpos2, hchan2⟩ := ih (step w e) s1 hs1 hf1
    exact ⟨s2, hs2, hf2, hout2.trans hout1, hpos2.trans hpos1, hchan2.trans hchan1⟩


/-- Running a session's forward task `k` times, while it keeps up (no lag),
delivers exactly the next `k` channel messages to its socket, in publish
order, as text frames. -/
theorem run_fwd_drain (k : Nat) :
    ∀ (w : World) (j : Nat) (s : Session),
      w.sessions.get? j = some s → s.fwdRunning = true →
      s.pos + k ≤ (logOf w s.chan).length →
      (logOf w s.chan).length - s.pos ≤ CHANNEL_CAPACITY →
      (run w (List.replicate k (Ev.fwd j))).logs = w.logs ∧
      (run w (List.replicate k (Ev.fwd j))).sessions.get? j =
        some { s with
               pos := s.pos + k,
               out := s.out ++
                 (((logOf w s.chan).drop s.pos).take k).map WireFrame.text } := by
  induction k with
  | zero =>
    intro w j s hs hfwd hlen hcap
    refine ⟨rfl, ?_⟩
    show w.sessions.get? j = _
    rw [hs]
    obtain ⟨chan, pos, fr, rr, ib, out⟩ := s
    simp
  | succ k ih =>
    intro w j s hs hfwd hlen hcap
    obtain ⟨chan, pos, fr, rr, ib, out⟩ := s
    dsimp only at hfwd hlen hcap ⊢
    have hpos : pos < (logOf w chan).length := by omega
    have heq : fwdStepSess w (Session.mk chan pos fr rr ib out) =
        Session.mk chan (pos + 1) fr rr ib
          (out ++ [WireFrame.text ((logOf w chan).getD pos "")]) := by
      unfold fwdStepSess
      dsimp only
      rw [hfwd, if_pos rfl, if_neg (by omega), if_neg (by omega)]
    have hstep : (step w (Ev.fwd j)).sessions.get? j =
        some (fwdStepSess w (Session.mk chan pos fr rr ib out)) :=
      get?_updAt_self _ _ _ _ hs
    have hrun1 : run w (List.replicate (k + 1) (Ev.fwd j)) =
        run (step w (Ev.fwd j)) (List.replicate k (Ev.fwd j)) := by
      rw [List.replicate_succ]
      rfl
    have hlogOf : logOf (step w (Ev.fwd j)) = logOf w := rfl
    have hs' : (step w (Ev.fwd j)).sessions.get? j =
        some (Session.mk chan (pos + 1) fr rr ib
          (out ++ [WireFrame.text ((logOf w chan).getD pos "")])) := by
      rw [hstep, heq]
    have hih := ih (step w (Ev.fwd j)) j
      (Session.mk chan (pos + 1) fr rr ib
        (out ++ [WireFrame.text ((logOf w chan).getD pos "")]))
      hs' hfwd
      (by show pos + 1 + k ≤ (logOf w chan).length; omega)
      (by show (logOf w chan).length - (pos + 1) ≤ CHANNEL_CAPACITY; omega)
    obtain ⟨hlogsk, hgetk⟩ := hih
    refine ⟨by rw [hrun1, hlogsk]; rfl, ?_⟩
    rw [hrun1, hgetk]
    dsimp only
    rw [List.getD_eq_getElem (logOf w chan) "" hpos]
    simp only [hlogOf]
    have hout : (out ++ [WireFrame.text (logOf w chan)[pos]]) ++
        List.map WireFrame.text (List.take k (List.drop (pos + 1) (logOf w chan))) =
        out ++ List.map WireFrame.text (List.take (k + 1) (List.drop pos (logOf w chan))) := by
      rw [List.drop_eq_getElem_cons hpos, List.take_succ_cons, List.map_cons,
        List.append_assoc]
      rfl
    rw [hout, show pos + 1 + k = pos + (k + 1) from by omega]

/-- C10: when a session's subscriber has fallen behind its channel by more
than `CHANNEL_CAPACITY` (100) messages, the first lagged receive terminates
the forward loop: the session's forward task stops without delivering
anything and without advancing its position (lag is fatal, not
skip-and-resume: under every later schedule nothing more is ever written to
this socket by the forward task), while the receive loop is not terminated
by this event. -/
theorem lagged_forward_loop_terminates_fatally (w : World) (i : Nat) (s : Session)
    (hs : w.sessions.get? i = some s) (hfwd : s.fwdRunning = true)
    (hrecv : s.recvRunning = true)
    (hlag : CHANNEL_CAPACITY < (logOf w s.chan).length - s.pos) :
    ((step w (Ev.fwd i)).sessions.get? i = some { s with fwdRunning := false }) ∧
    (((step w (Ev.fwd i)).sessions.get? i).map Session.recvRunning = some true) ∧
    (∀ es : List Ev, ∃ s',
      (run (step w (Ev.fwd i)) es).sessions.get? i = some s' ∧
      s'.fwdRunning = false ∧ s'.out = s.out) := by
  have heq : fwdStepSess w s = { s with fwdRunning := false } := by
    unfold fwdStepSess
    rw [hfwd, if_pos rfl, if_neg (by omega), if_pos hlag]
  have h1 : (step w (Ev.fwd i)).sessions.get? i = some { s with fwdRunning := false } := by
    have h0 := get?_updAt_self w.sessions (fwdStepSess w) i s hs
    rw [heq] at h0
    exact h0
  refine ⟨h1, ?_, ?_⟩
  · rw [h1]
    simp [hrecv]
  · intro es
    obtain ⟨s', hs', hf', hout', _, _⟩ :=
      run_fwdStopped es (step w (Ev.fwd i)) i { s with fwdRunning := false } h1 rfl
    exact ⟨s', hs', hf', hout'⟩

/-- C10 witness: a session subscribed at position 0 of a channel holding
101 messages; one forward-task iteration stops the forward loop (delivering
nothing, advancing nothing) while the receive loop stays running. -/
theorem lagged_forward_loop_terminates_fatally_witness :
    ((step ⟨[(0, List.replicate 101 "m")], [⟨0, 0, true, true, [], []⟩]⟩
        (Ev.fwd 0)).sessions.get? 0 =
      some { (⟨0, 0, true, true, [], []⟩ : Session) with fwdRunning := false }) ∧
    (((step ⟨[(0, List.replicate 101 "m")], [⟨0, 0, true, true, [], []⟩]⟩
        (Ev.fwd 0)).sessions.get? 0).map Session.recvRunning = some true) :=
  ⟨(lagged_forward_loop_terminates_fatally
      ⟨[(0, List.replicate 101 "m")], [⟨0, 0, true, true, [], []⟩]⟩ 0
      ⟨0, 0, true, true, [], []⟩ rfl rfl rfl (by decide)).1,
   (lagged_forward_loop_terminates_fatally
      ⟨[(0, List.replicate 101 "m")], [⟨0, 0, true, true, [], []⟩]⟩ 0
      ⟨0, 0, true, true, [], []⟩ rfl rfl rfl (by decide)).2.1⟩

/-- C7: a text frame from a session is published verbatim to its room's
broadcast channel (appended unchanged to the channel log), and every
currently subscribed session of that room — any session of the same
channel whose forward task is live and keeping up, the sending session
itself included — receives it on its socket as a text frame after draining
its forward task. -/
theorem text_frame_fanout_echo_inclusive (w : World) (i : Nat) (s : Session)
    (t : String) (r : List Frame) (L : List String)
    (hs : w.sessions.get? i = some s) (hrun : s.recvRunning = true)
    (hbox : s.inbox = Frame.text t :: r)
    (hL : lookupLog w.logs s.chan = some L)
    (hrc : recvCount w s.chan ≠ 0) :
    logOf (step w (Ev.recv i)) s.chan = L ++ [t] ∧
    (∀ j sj, (step w (Ev.recv i)).sessions.get? j = some sj → sj.chan = s.chan →
      sj.fwdRunning = true → sj.pos ≤ L.length →
      L.length + 1 - sj.pos ≤ CHANNEL_CAPACITY →
      ∃ sj', (run (step w (Ev.recv i))
          (List.replicate (L.length + 1 - sj.pos) (Ev.fwd j))).sessions.get? j =
          some sj' ∧ WireFrame.text t ∈ sj'.out) := by
  have hstep := step_recv_text w i s t r hs hrun hbox
  have hpub : logOf (step w (Ev.recv i)) s.chan = L ++ [t] := by
    rw [hstep]
    show logOf (publish w s.chan t) s.chan = L ++ [t]
    exact logOf_publish_self w s.chan t L hrc hL
  refine ⟨hpub, ?_⟩
  intro j sj hj hchan hfwd hple hcap
  have hlen' : (logOf (step w (Ev.recv i)) sj.chan).length = L.length + 1 := by
    rw [hchan, hpub]
    simp
  obtain ⟨_, hget⟩ := run_fwd_drain (L.length + 1 - sj.pos) (step w (Ev.recv i)) j sj
    hj hfwd (by omega) (by omega)
  refine ⟨_, hget, ?_⟩
  apply List.mem_append_right
  have hdropfull : (logOf (step w (Ev.recv i)) sj.chan).drop sj.pos =
      L.drop sj.pos ++ [t] := by
    rw [hchan, hpub, List.drop_append_of_le_length hple]
  have htake : ((logOf (step w (Ev.recv i)) sj.chan).drop sj.pos).take
      (L.length + 1 - sj.pos) = (logOf (step w (Ev.recv i)) sj.chan).drop sj.pos := by
    apply List.take_of_length_le
    rw [List.length_drop, hlen']
  rw [htake, hdropfull, List.map_append]
  apply List.mem_append_right
  simp

/-- C7 witness: two sessions share channel 0; session 0 sends `"hi"`; the
payload lands verbatim in the channel log, and one forward-task iteration
delivers it both to session 1 and to session 0 itself (echo-inclusive). -/
theorem text_frame_fanout_echo_inclusive_witness :
    (logOf (step ⟨[(0, [])],
        [⟨0, 0, true, true, [Frame.text "hi"], []⟩, ⟨0, 0, true, true, [], []⟩]⟩
        (Ev.recv 0)) 0 = ["hi"]) ∧
    (WireFrame.text "hi" ∈
      ((run (step ⟨[(0, [])],
          [⟨0, 0, true, true, [Frame.text "hi"], []⟩, ⟨0, 0, true, true, [], []⟩]⟩
          (Ev.recv 0)) (List.replicate 1 (Ev.fwd 1))).sessions.get? 1).elim []
        Session.out) ∧
    (WireFrame.text "hi" ∈
      ((run (step ⟨[(0, [])],
          [⟨0, 0, true, true, [Frame.text "hi"], []⟩, ⟨0, 0, true, true, [], []⟩]⟩
          (Ev.recv 0)) (List.replicate 1 (Ev.fwd 0))).sessions.get? 0).elim []
        Session.out) := by
  have h := text_frame_fanout_echo_inclusive
    ⟨[(0, [])], [⟨0, 0, true, true, [Frame.text "hi"], []⟩, ⟨0, 0, true, true, [], []⟩]⟩
    0 ⟨0, 0, true, true, [Frame.text "hi"], []⟩ "hi" [] [] rfl rfl rfl rfl (by decide)
  refine ⟨h.1, ?_, ?_⟩
  · obtain ⟨sB, hsB, hmem⟩ :=
      h.2 1 ⟨0, 0, true, true, [], []⟩ (by decide) rfl rfl (by decide) (by decide)
    have hsB' : (run (step ⟨[(0, [])],
        [⟨0, 0, true, true, [Frame.text "hi"], []⟩, ⟨0, 0, true, true, [], []⟩]⟩
        (Ev.recv 0)) (List.replicate 1 (Ev.fwd 1))).sessions.get? 1 = some sB := hsB
    rw [hsB']
    exact hmem
  · obtain ⟨sA, hsA, hmem⟩ :=
      h.2 0 ⟨0, 0, true, true, [], []⟩ (by decide) rfl rfl (by decide) (by decide)
    have hsA' : (run (step ⟨[(0, [])],
        [⟨0, 0, true, true, [Frame.text "hi"], []⟩, ⟨0, 0, true, true, [], []⟩]⟩
        (Ev.recv 0)) (List.replicate 1 (Ev.fwd 0))).sessions.get? 0 = some sA := hsA
    rw [hsA']
    exact hmem

theorem hexDigit_inj : ∀ m : Nat, m < 16 → ∀ n : Nat, n < 16 →
    hexDigit m = hexDigit n → m = n := by
  decide

theorem byteToHex_inj (b1 b2 : Nat) (h1 : b1 < 256) (h2 : b2 < 256)
    (h : byteToHex b1 = byteToHex b2) : b1 = b2 := by
  unfold byteToHex at h
  rw [Nat.mod_eq_of_lt h1, Nat.mod_eq_of_lt h2] at h
  have e1 : hexDigit (b1 / 16) = hexDigit (b2 / 16) := by
    injection h
  have e2 : hexDigit (b1 % 16) = hexDigit (b2 % 16) := by
    have := h
    injection this with _ htail
    injection htail
  have d1 : b1 / 16 = b2 / 16 := hexDigit_inj _ (by omega) _ (by omega) e1
  have d2 : b1 % 16 = b2 % 16 := hexDigit_inj _ (by omega) _ (by omega) e2
  omega

theorem hexPairs_inj : ∀ d1 d2 : List Nat, (∀ b ∈ d1, b < 256) → (∀ b ∈ d2, b < 256) →
    (d1.map byteToHex).flatten = (d2.map byteToHex).flatten → d1 = d2 := by
  intro d1
  induction d1 with
  | nil =>
    intro d2 _ h2 h
    cases d2 with
    | nil => rfl
    | cons b t =>
      exfalso
      simp [byteToHex] at h
  | cons b1 t1 ih =>
    intro d2 h1 h2 h
    cases d2 with
    | nil =>
      exfalso
      simp [byteToHex] at h
    | cons b2 t2 =>
      simp only [List.map_cons, List.flatten_cons, byteToHex, List.cons_append,
        List.nil_append, List.cons.injEq] at h
      obtain ⟨e1, e2, e3⟩ := h
      have hb1 : b1 < 256 := h1 b1 (List.mem_cons_self _ _)
      have hb2 : b2 < 256 := h2 b2 (List.mem_cons_self _ _)
      have hb : b1 = b2 := byteToHex_inj b1 b2 hb1 hb2 (by
        unfold byteToHex
        rw [e1, e2])
      subst hb
      rw [ih t2 (fun b hb => h1 b (List.mem_cons_of_mem _ hb))
        (fun b hb => h2 b (List.mem_cons_of_mem _ hb)) e3]

/-- C9: a binary frame with payload `d` is published to the room channel as
the UTF-8 text payload `{"type":"binary","data":"<encoded>"}` where
`<encoded>` is the (injective, hence faithful) byte encoding produced by
`base64_encode`; and across every schedule, every frame any subscriber
receives on its socket is a text frame — the original binary frame is never
forwarded. -/
theorem binary_frame_envelope :
    (∀ (w : World) (i : Nat) (s : Session) (d : List Nat) (r : List Frame)
        (L : List String),
      w.sessions.get? i = some s → s.recvRunning = true →
      s.inbox = Frame.binary d :: r →
      lookupLog w.logs s.chan = some L → recvCount w s.chan ≠ 0 →
      logOf (step w (Ev.recv i)) s.chan =
        L ++ ["\x7b\"type\":\"binary\",\"data\":\"" ++ base64_encode d ++ "\"\x7d"]) ∧
    (∀ d1 d2 : List Nat, (∀ b ∈ d1, b < 256) → (∀ b ∈ d2, b < 256) →
      base64_encode d1 = base64_encode d2 → d1 = d2) ∧
    (∀ (w : World) (es : List Ev), OutText w →
      ∀ s ∈ (run w es).sessions, ∀ f ∈ s.out, ∃ t, f = WireFrame.text t) := by
  refine ⟨?_, ?_, ?_⟩
  · intro w i s d r L hs hrun hbox hL hrc
    rw [step_recv_binary w i s d r hs hrun hbox]
    show logOf (publish w s.chan (binaryEnvelope d)) s.chan = _
    exact logOf_publish_self w s.chan (binaryEnvelope d) L hrc hL
  · intro d1 d2 h1 h2 h
    unfold base64_encode at h
    have hl : (d1.map byteToHex).flatten = (d2.map byteToHex).flatten := by
      injection h
    exact hexPairs_inj d1 d2 h1 h2 hl
  · intro w es h
    exact run_OutText w es h

/-- C9 witness: the bytes `[0, 255]` arrive as the JSON envelope text
`{"type":"binary","data":"00ff"}` in the channel log, and the encoding of
`[0, 255]` is recovered injectively. -/
theorem binary_frame_envelope_witness :
    (logOf (step ⟨[(0, [])], [⟨0, 0, true, true, [Frame.binary [0, 255]], []⟩]⟩
        (Ev.recv 0)) 0 = ["\x7b\"type\":\"binary\",\"data\":\"00ff\"\x7d"]) ∧
    ([0, 255] = ([0, 255] : List Nat)) := by
  constructor
  · have h := binary_frame_envelope.1
      ⟨[(0, [])], [⟨0, 0, true, true, [Frame.binary [0, 255]], []⟩]⟩ 0
      ⟨0, 0, true, true, [Frame.binary [0, 255]], []⟩ [0, 255] [] [] rfl rfl rfl rfl
      (by decide)
    rw [h]
    rfl
  · exact binary_frame_envelope.2.1 [0, 255] [0, 255] (by decide) (by decide) rfl

/-- C8: room isolation.  (1) Two different room ids never share a
broadcast channel: in a well-formed registry, the channel obtained for one
room differs from the channel obtained for any other room.  (2) A
receive-loop step of a session — in particular any publish it performs —
never changes the log of a channel other than the session's own.  (3)
Across every schedule, every message a session receives on its socket is a
member of its own channel's log.  Hence a message published in one room is
never delivered to a session subscribed to a different room. -/
theorem room_channel_isolation :
    (∀ (st : GatewayState) (r1 r2 : String), GatewayWF st → r1 ≠ r2 →
      (get_or_create st r1).1 ≠ (get_or_create (get_or_create st r1).2 r2).1) ∧
    (∀ (w : World) (i : Nat) (s : Session) (c' : Nat),
      w.sessions.get? i = some s → s.chan ≠ c' →
      logOf (step w (Ev.recv i)) c' = logOf w c') ∧
    (∀ (w : World) (es : List Ev), OutFromOwnChannel w →
      ∀ s ∈ (run w es).sessions, ∀ t, WireFrame.text t ∈ s.out →
        t ∈ logOf (run w es) s.chan) := by
  refine ⟨?_, ?_, ?_⟩
  · intro st r1 r2 hwf hne
    unfold get_or_create
    cases hl1 : lookupRoom st.rooms r1 with
    | some c1 =>
      dsimp only
      cases hl2 : lookupRoom st.rooms r2 with
      | some c2 =>
        dsimp only
        intro he
        exact hne (hwf.injOn _ (lookupRoom_mem _ _ _ hl1) _ (lookupRoom_mem _ _ _ hl2) he)
      | none =>
        dsimp only
        exact Nat.ne_of_lt (hwf.roomsLt _ (lookupRoom_mem _ _ _ hl1))
    | none =>
      dsimp only
      have hskip : lookupRoom ((r1, st.nextId) :: st.rooms) r2 =
          lookupRoom st.rooms r2 := by
        simp [lookupRoom, hne]
      rw [hskip]
      cases hl2 : lookupRoom st.rooms r2 with
      | some c2 =>
        dsimp only
        exact Nat.ne_of_gt (hwf.roomsLt _ (lookupRoom_mem _ _ _ hl2))
      | none =>
        dsimp only
        omega
  · intro w i s c' hs hne
    by_cases hrun : s.recvRunning = true
    · cases hbox : s.inbox with
      | nil =>
        rw [step_recv_exhausted w i s hs hrun hbox]
        rfl
      | cons fr r =>
        cases fr with
        | text t0 =>
          rw [step_recv_text w i s t0 r hs hrun hbox]
          show logOf (publish w s.chan t0) c' = logOf w c'
          exact logOf_publish_ne w s.chan c' t0 (fun e => hne e.symm)
        | binary d =>
          rw [step_recv_binary w i s d r hs hrun hbox]
          show logOf (publish w s.chan (binaryEnvelope d)) c' = logOf w c'
          exact logOf_publish_ne w s.chan c' (binaryEnvelope d) (fun e => hne e.symm)
        | ping d =>
          rw [step_recv_passive w i s (Frame.ping d) r hs hrun hbox (Or.inl ⟨d, rfl⟩)]
          rfl
        | pong =>
          rw [step_recv_passive w i s Frame.pong r hs hrun hbox (Or.inr rfl)]
          rfl
        | close =>
          rw [step_recv_stop w i s Frame.close r hs hrun hbox (Or.inl rfl)]
          rfl
        | errFrame =>
          rw [step_recv_stop w i s Frame.errFrame r hs hrun hbox (Or.inr rfl)]
          rfl
    · rw [step_recv_not_running w i s hs (Bool.not_eq_true _ ▸ hrun)]
  · intro w es h
    exact run_OutFromOwnChannel w es h

/-- C8 witness: the registry assigns room `"roomY"` a channel different
from `"roomX"`'s; a publish by the session on channel 0 leaves channel 1's
log unchanged; and in a concrete run every delivered message comes from
the receiving session's own channel. -/
theorem room_channel_isolation_witness :
    ((get_or_create ⟨[("roomX", 0)], [(0, [])], 1⟩ "roomX").1 ≠
      (get_or_create (get_or_create ⟨[("roomX", 0)], [(0, [])], 1⟩ "roomX").2 "roomY").1) ∧
    (logOf (step ⟨[(0, ["a"]), (1, ["b"])], [⟨0, 0, true, true, [Frame.text "p"], []⟩]⟩
        (Ev.recv 0)) 1 =
      logOf ⟨[(0, ["a"]), (1, ["b"])], [⟨0, 0, true, true, [Frame.text "p"], []⟩]⟩ 1) ∧
    ("q" ∈ logOf (run ⟨[(0, [])], [⟨0, 0, true, true, [Frame.text "q"], []⟩]⟩
        [Ev.recv 0, Ev.fwd 0]) 0) := by
  refine ⟨?_, ?_, ?_⟩
  · exact room_channel_isolation.1 ⟨[("roomX", 0)], [(0, [])], 1⟩ "roomX" "roomY"
      ⟨by decide, by decide, by decide⟩ (by decide)
  · exact room_channel_isolation.2.1
      ⟨[(0, ["a"]), (1, ["b"])], [⟨0, 0, true, true, [Frame.text "p"], []⟩]⟩ 0
      ⟨0, 0, true, true, [Frame.text "p"], []⟩ 1 rfl (by decide)
  · exact room_channel_isolation.2.2
      ⟨[(0, [])], [⟨0, 0, true, true, [Frame.text "q"], []⟩]⟩ [Ev.recv 0, Ev.fwd 0]
      (by intro s hs t ht
          have hspec : s = ⟨0, 0, true, true, [Frame.text "q"], []⟩ := by
            simpa using hs
          subst hspec
          exact absurd ht (List.not_mem_nil _))
      ⟨0, 1, true, true, [], [WireFrame.text "q"]⟩ (by decide) "q" (by decide)

set_option maxRecDepth 4000 in
/-- C2 (code bug evidence): only the receive loop cancels its sibling; the
forward loop's termination cancels nothing.  Concretely: a session joins an
empty channel and its receive loop publishes 101 messages while the forward
task never runs; the forward task's first iteration then lags
(101 > `CHANNEL_CAPACITY`) and its loop breaks.  After that, the receive
loop is still running and still processes the next socket frame — so one
loop has ended while its sibling keeps running, against the claim that
whichever loop terminates first promptly force-cancels the other. -/
theorem forward_loop_termination_leaves_receive_loop_running :
    (((run ⟨[(0, [])],
        [⟨0, 0, true, true, List.replicate 101 (Frame.text "m") ++ [Frame.text "z"], []⟩]⟩
        (List.replicate 101 (Ev.recv 0) ++ [Ev.fwd 0])).sessions.get? 0).map
      Session.fwdRunning = some false) ∧
    (((run ⟨[(0, [])],
        [⟨0, 0, true, true, List.replicate 101 (Frame.text "m") ++ [Frame.text "z"], []⟩]⟩
        (List.replicate 101 (Ev.recv 0) ++ [Ev.fwd 0])).sessions.get? 0).map
      Session.recvRunning = some true) ∧
    (((step (run ⟨[(0, [])],
        [⟨0, 0, true, true, List.replicate 101 (Frame.text "m") ++ [Frame.text "z"], []⟩]⟩
        (List.replicate 101 (Ev.recv 0) ++ [Ev.fwd 0])) (Ev.recv 0)).sessions.get? 0).map
      Session.inbox = some []) ∧
    (((step (run ⟨[(0, [])],
        [⟨0, 0, true, true, List.replicate 101 (Frame.text "m") ++ [Frame.text "z"], []⟩]⟩
        (List.replicate 101 (Ev.recv 0) ++ [Ev.fwd 0])) (Ev.recv 0)).sessions.get? 0).map
      Session.recvRunning = some true) := by
  refine ⟨?_, ?_, ?_, ?_⟩ <;> decide
